import Mathlib

/-!
Shallow embedding of the gold-price pipeline (extractor/updater in
`src/extract_gold_data.py` with `src/config.py`, read-only query API in
`src/api.py`).

Modelling conventions:
* A datetime is a `Nat`: seconds since the Unix epoch.  The pandas
  `.dt.date` / `.date()` truncation to a calendar date is division by
  86400, and Python's `weekday()` (Monday = 0) is `(day + 3) % 7`
  because the epoch day was a Thursday.
* Prices are `float` in the source; no claim performs arithmetic on
  them, they are only stored, filtered and returned verbatim, so they
  are modelled as opaque `Int` values with decidable equality.
* The three persisted files (daily parquet, backup parquet, checkpoint
  text file) form an explicit `FileSystem` state; a missing file is
  `none`.  The external provider (`yfinance`, wrapped by
  `extract_historical_data`, which turns provider errors into an empty
  frame) is a parameter `fetch : start → stop → rows`.
* `sort_values('date')` is modelled by insertion sort on the date key;
  `drop_duplicates(subset=['date'], keep='last')` keeps a row exactly
  when no later row has the same date.
-/

namespace GoldPipeline

open List

/-- Number of seconds in a day; used to truncate datetimes to calendar dates. -/
def secPerDay : Nat := 86400

/-- A datetime value: seconds since the Unix epoch. -/
abbrev DateTime := Nat

/-- Calendar-date truncation, the model of Python's `.date()` / pandas `.dt.date`. -/
def calendar_date (t : DateTime) : Nat := t / secPerDay

/-- Python's `datetime.weekday()`: Monday = 0 … Sunday = 6.
The Unix epoch day (1970-01-01) was a Thursday, hence the offset 3. -/
def weekday (t : DateTime) : Nat := (calendar_date t + 3) % 7

/-- One row of the price table: columns `date, max_price, min_price, closed_price`
produced by `extract_historical_data`.  Prices are opaque values. -/
structure PriceRecord where
  date : DateTime
  max_price : Int
  min_price : Int
  closed_price : Int
deriving DecidableEq, Repr

/-- The `date` column of a table. -/
def datesOf (l : List PriceRecord) : List DateTime := l.map (·.date)

/-- `config.BACKUP_YEARS`. -/
def BACKUP_YEARS : Nat := 3

/-- `config.get_backup_start_date`: `datetime.now() - timedelta(days=BACKUP_YEARS * 365)`. -/
def get_backup_start_date (now : DateTime) : DateTime :=
  now - BACKUP_YEARS * 365 * secPerDay

/-- `config.get_last_business_day`: Saturday maps to the previous Friday,
Sunday maps to Friday two days back, any other day maps to yesterday. -/
def get_last_business_day (now : DateTime) : DateTime :=
  if weekday now = 5 then now - secPerDay
  else if weekday now = 6 then now - 2 * secPerDay
  else now - secPerDay

/-- The persisted state: `gold_daily.parquet`, `gold_backup.parquet`,
`last_update.txt` (the checkpoint).  `none` models a missing file. -/
structure FileSystem where
  daily : Option (List PriceRecord)
  backup : Option (List PriceRecord)
  checkpoint : Option DateTime
deriving DecidableEq, Repr

/-- `df['date'].max()` on a table that is known to be non-empty
(returns 0 on the empty table, where pandas would give `NaT`). -/
def maxDate : List PriceRecord → Nat
  | [] => 0
  | r :: rs => max r.date (maxDate rs)

/-- `df['date'].max()` as used by `health_check`: `none` models pandas `NaT`
on an empty frame. -/
def maxDate? : List PriceRecord → Option Nat
  | [] => none
  | r :: rs =>
    match maxDate? rs with
    | none => some r.date
    | some m => some (max r.date m)

/-- `drop_duplicates(subset=['date'], keep='last')`: a row survives exactly
when no later row carries the same date, so the last occurrence of each
date is kept, in its original position. -/
def drop_duplicates_keep_last : List PriceRecord → List PriceRecord
  | [] => []
  | r :: rs =>
    if r.date ∈ datesOf rs then drop_duplicates_keep_last rs
    else r :: drop_duplicates_keep_last rs

/-- Ascending comparison on the `date` column. -/
def dateLE (a b : PriceRecord) : Prop := a.date ≤ b.date

/-- Descending comparison on the `date` column. -/
def dateGE (a b : PriceRecord) : Prop := b.date ≤ a.date

/-- Strict ascending comparison on the `date` column. -/
def dateLT (a b : PriceRecord) : Prop := a.date < b.date

instance : DecidableRel dateLE := fun a b => inferInstanceAs (Decidable (a.date ≤ b.date))

instance : DecidableRel dateGE := fun a b => inferInstanceAs (Decidable (b.date ≤ a.date))

instance : IsTotal PriceRecord dateLE := ⟨fun a b => Nat.le_total a.date b.date⟩

instance : IsTrans PriceRecord dateLE := ⟨fun _ _ _ h h2 => Nat.le_trans h h2⟩

instance : IsTotal PriceRecord dateGE := ⟨fun a b => Or.symm (Nat.le_total a.date b.date)⟩

instance : IsTrans PriceRecord dateGE := ⟨fun _ _ _ h h2 => Nat.le_trans h2 h⟩

instance : IsAntisymm PriceRecord dateLT :=
  ⟨fun _ _ h h2 => absurd (Nat.lt_trans h h2) (Nat.lt_irrefl _)⟩

/-- `sort_values('date')` (ascending). -/
def sort_by_date (l : List PriceRecord) : List PriceRecord :=
  l.insertionSort dateLE

/-- `sort_values('date', ascending=False)`. -/
def sort_by_date_desc (l : List PriceRecord) : List PriceRecord :=
  l.insertionSort dateGE

/-- The consolidation step of `incremental_update` (lines 144-149 of
`extract_gold_data.py`): concatenate, deduplicate by date keeping the
last occurrence, sort by date. -/
def consolidate (existing new : List PriceRecord) : List PriceRecord :=
  sort_by_date (drop_duplicates_keep_last (existing ++ new))

/-- `create_backup`: fetch the window from `get_backup_start_date` to now
(the default end of `extract_historical_data`); on an empty extraction
`sys.exit(1)` without touching any file; otherwise write the backup
parquet and set the checkpoint to the max date of the extracted table.
The second component is the process exit code (`some 1` on failure). -/
def create_backup (fetch : DateTime → DateTime → List PriceRecord)
    (now : DateTime) (fs : FileSystem) : FileSystem × Option Nat :=
  let df := fetch (get_backup_start_date now) now
  if df = [] then (fs, some 1)
  else ({ fs with backup := some df, checkpoint := some (maxDate df) }, none)

/-- `incremental_update`: delegate to `create_backup` when no checkpoint
exists; no-op when the checkpoint's calendar date has reached the last
business day; otherwise fetch `(checkpoint + 1 day, last business day]`,
no-op on an empty extraction, and otherwise merge into the daily table
and advance the checkpoint to the max date of the newly fetched rows. -/
def incremental_update (fetch : DateTime → DateTime → List PriceRecord)
    (now : DateTime) (fs : FileSystem) : FileSystem × Option Nat :=
  match fs.checkpoint with
  | none => create_backup fetch now fs
  | some last_update =>
    let last_business_day := get_last_business_day now
    if calendar_date last_business_day ≤ calendar_date last_update then (fs, none)
    else
      let df_new := fetch (last_update + secPerDay) last_business_day
      if df_new = [] then (fs, none)
      else
        let df_existing := fs.daily.getD []
        let df_consolidated := consolidate df_existing df_new
        ({ fs with daily := some df_consolidated,
                   checkpoint := some (maxDate df_new) }, none)

/-- `api.load_data`: prefer the daily parquet, fall back to the backup
parquet, raise HTTP 404 ("No data available. Run the pipeline first.")
when neither file exists. -/
def load_data (fs : FileSystem) : Except Nat (List PriceRecord) :=
  match fs.daily with
  | some df => .ok df
  | none =>
    match fs.backup with
    | some df => .ok df
    | none => .error 404

/-- `GET /prices` (`get_all_prices`): sort descending by date and return
the `iloc[skip : skip + limit]` page. -/
def get_all_prices (fs : FileSystem) (limit skip : Nat) :
    Except Nat (List PriceRecord) :=
  match load_data fs with
  | .error e => .error e
  | .ok df => .ok (((sort_by_date_desc df).drop skip).take limit)

/-- `GET /prices/date/{target_date}` (`get_price_by_date`): filter on the
calendar date, 404 when the filter is empty, else the first row. -/
def get_price_by_date (fs : FileSystem) (target_date : Nat) :
    Except Nat PriceRecord :=
  match load_data fs with
  | .error e => .error e
  | .ok df =>
    match df.filter (fun r => calendar_date r.date == target_date) with
    | [] => .error 404
    | r :: _ => .ok r

/-- `GET /prices/range` (`get_prices_by_range`): inclusive calendar-date
filter, sorted ascending; 404 when empty. -/
def get_prices_by_range (fs : FileSystem) (start_date end_date : Nat) :
    Except Nat (List PriceRecord) :=
  match load_data fs with
  | .error e => .error e
  | .ok df =>
    let df_filtered := sort_by_date (df.filter (fun r =>
      start_date ≤ calendar_date r.date && calendar_date r.date ≤ end_date))
    if df_filtered = [] then .error 404 else .ok df_filtered

/-- The body of a `/health` response. -/
inductive HealthResponse where
  | healthy (total_records : Nat) (last_update : Option DateTime)
  | unhealthy (error : Nat)
deriving DecidableEq, Repr

/-- The HTTP status code a `HealthResponse` is served with: plain 200 for
the healthy dict, explicit `JSONResponse(status_code=503)` otherwise. -/
def HealthResponse.statusCode : HealthResponse → Nat
  | .healthy _ _ => 200
  | .unhealthy _ => 503

/-- `GET /health` (`health_check`): try to load; report count and
`df['date'].max()` when the load succeeds, 503 with the error otherwise. -/
def health_check (fs : FileSystem) : HealthResponse :=
  match load_data fs with
  | .ok df => .healthy df.length (maxDate? df)
  | .error e => .unhealthy e

/-- A read request to the query service. -/
inductive Request where
  | list (limit skip : Nat)
  | byDate (d : Nat)
  | byRange (s e : Nat)
  | health
deriving DecidableEq, Repr

/-- A response from the query service. -/
inductive Answer where
  | records : List PriceRecord → Answer
  | record : PriceRecord → Answer
  | httpError : Nat → Answer
  | healthAnswer : HealthResponse → Answer
deriving DecidableEq, Repr

/-- Dispatch of the read-only endpoints, threading the file-system state
exactly as the handlers do: none of them performs a write. -/
def handle_request (fs : FileSystem) : Request → Answer × FileSystem
  | .list limit skip =>
    (match get_all_prices fs limit skip with
     | .ok l => .records l
     | .error e => .httpError e, fs)
  | .byDate d =>
    (match get_price_by_date fs d with
     | .ok r => .record r
     | .error e => .httpError e, fs)
  | .byRange s e =>
    (match get_prices_by_range fs s e with
     | .ok l => .records l
     | .error e => .httpError e, fs)
  | .health => (.healthAnswer (health_check fs), fs)

/-! Helper lemmas about deduplication and sorting. -/

theorem mem_datesOf {r : PriceRecord} {l : List PriceRecord} (h : r ∈ l) :
    r.date ∈ datesOf l :=
  List.mem_map_of_mem _ h

theorem datesOf_append (A B : List PriceRecord) :
    datesOf (A ++ B) = datesOf A ++ datesOf B :=
  List.map_append _ _ _

theorem dedup_sublist (l : List PriceRecord) :
    drop_duplicates_keep_last l <+ l := by
  induction l with
  | nil => exact List.Sublist.refl _
  | cons r rs ih =>
    rw [drop_duplicates_keep_last]
    split
    · exact ih.cons _
    · exact ih.cons₂ _

theorem mem_of_mem_dedup {x : PriceRecord} {l : List PriceRecord}
    (h : x ∈ drop_duplicates_keep_last l) : x ∈ l :=
  (dedup_sublist l).mem h

theorem nodup_dates_dedup (l : List PriceRecord) :
    (datesOf (drop_duplicates_keep_last l)).Nodup := by
  induction l with
  | nil => exact List.nodup_nil
  | cons r rs ih =>
    rw [drop_duplicates_keep_last]
    split
    · exact ih
    · rename_i hnot
      rw [datesOf, List.map_cons, List.nodup_cons]
      exact ⟨fun hc => hnot (((dedup_sublist rs).map (·.date)).mem hc), ih⟩

theorem dedup_eq_self_of_nodup {l : List PriceRecord} (h : (datesOf l).Nodup) :
    drop_duplicates_keep_last l = l := by
  induction l with
  | nil => rfl
  | cons r rs ih =>
    rw [datesOf, List.map_cons, List.nodup_cons] at h
    rw [drop_duplicates_keep_last, if_neg (show r.date ∉ datesOf rs from h.1), ih h.2]

theorem dedup_append (A B : List PriceRecord) :
    drop_duplicates_keep_last (A ++ B)
      = (drop_duplicates_keep_last A).filter (fun a => decide (a.date ∉ datesOf B))
        ++ drop_duplicates_keep_last B := by
  induction A with
  | nil => rw [List.nil_append, drop_duplicates_keep_last, List.filter_nil, List.nil_append]
  | cons a A ih =>
    by_cases h1 : a.date ∈ datesOf A
    · have hAB : a.date ∈ datesOf (A ++ B) := by
        rw [datesOf_append]; exact List.mem_append_left _ h1
      rw [List.cons_append, drop_duplicates_keep_last, if_pos hAB,
          drop_duplicates_keep_last, if_pos h1, ih]
    · by_cases h2 : a.date ∈ datesOf B
      · have hAB : a.date ∈ datesOf (A ++ B) := by
          rw [datesOf_append]; exact List.mem_append_right _ h2
        rw [List.cons_append, drop_duplicates_keep_last, if_pos hAB,
            drop_duplicates_keep_last, if_neg h1, List.filter_cons, ih]
        simp [h2]
      · have hAB : a.date ∉ datesOf (A ++ B) := by
          rw [datesOf_append]; simp [h1, h2]
        rw [List.cons_append, drop_duplicates_keep_last, if_neg hAB,
            drop_duplicates_keep_last, if_neg h1, List.filter_cons, ih]
        simp [h2]

theorem sorted_dateLT_of_sorted_le {l : List PriceRecord}
    (hs : l.Sorted dateLE) (hn : (datesOf l).Nodup) : l.Sorted dateLT := by
  have hne : l.Pairwise (fun a b => a.date ≠ b.date) := by
    rw [List.Nodup, datesOf, List.pairwise_map] at hn
    exact hn
  exact (hs.and hne).imp (fun h => Nat.lt_of_le_of_ne h.1 h.2)

theorem nodup_dates_sort {l : List PriceRecord} (h : (datesOf l).Nodup) :
    (datesOf (sort_by_date l)).Nodup := by
  have hp : datesOf (sort_by_date l) ~ datesOf l := by
    unfold datesOf sort_by_date
    exact (List.perm_insertionSort dateLE l).map (·.date)
  exact hp.nodup_iff.2 h

theorem consolidate_perm (T N : List PriceRecord) :
    consolidate T N ~ drop_duplicates_keep_last (T ++ N) :=
  List.perm_insertionSort _ _

theorem consolidate_sorted (T N : List PriceRecord) :
    (consolidate T N).Sorted dateLE :=
  List.sorted_insertionSort _ _

theorem consolidate_nodup_dates (T N : List PriceRecord) :
    (datesOf (consolidate T N)).Nodup :=
  nodup_dates_sort (nodup_dates_dedup _)

theorem dedup_filter_out (N : List PriceRecord) :
    (drop_duplicates_keep_last N).filter (fun a => decide (a.date ∉ datesOf N)) = [] := by
  rw [List.filter_eq_nil_iff]
  intro a ha
  simp only [decide_eq_true_eq]
  exact fun h => h (mem_datesOf (mem_of_mem_dedup ha))

theorem filter_self_idem (l : List PriceRecord) (p : PriceRecord → Bool) :
    (l.filter p).filter p = l.filter p :=
  List.filter_eq_self.2 (fun _ ha => List.of_mem_filter ha)

theorem le_maxDate {r : PriceRecord} {l : List PriceRecord} (h : r ∈ l) :
    r.date ≤ maxDate l := by
  induction l with
  | nil => cases h
  | cons a as ih =>
    rw [maxDate]
    rcases List.mem_cons.1 h with rfl | h2
    · exact Nat.le_max_left _ _
    · exact Nat.le_trans (ih h2) (Nat.le_max_right _ _)

theorem maxDate_mem {l : List PriceRecord} (h : l ≠ []) : maxDate l ∈ datesOf l := by
  induction l with
  | nil => exact absurd rfl h
  | cons a as ih =>
    rw [maxDate, datesOf, List.map_cons]
    by_cases hnil : as = []
    · subst hnil
      rw [maxDate, Nat.max_eq_left (Nat.zero_le _)]
      exact List.mem_cons_self _ _
    · cases Nat.le_total a.date (maxDate as) with
      | inl hle =>
        rw [Nat.max_eq_right hle]
        exact List.mem_cons_of_mem _ (ih hnil)
      | inr hge =>
        rw [Nat.max_eq_left hge]
        exact List.mem_cons_self _ _

/-- C1: Incremental merge is idempotent: for every existing table and every
non-empty list of newly fetched rows, merging the same new-rows set twice
(concatenate, deduplicate by date keeping the last occurrence, sort by date)
yields exactly the same table as merging it once. -/
theorem merge_idempotent (T N : List PriceRecord) (hN : N ≠ []) :
    consolidate (consolidate T N) N = consolidate T N := by
  have hMperm : consolidate T N ~ drop_duplicates_keep_last (T ++ N) :=
    consolidate_perm T N
  have hMnodup : (datesOf (consolidate T N)).Nodup := consolidate_nodup_dates T N
  have hsplit : drop_duplicates_keep_last (consolidate T N ++ N)
      = (consolidate T N).filter (fun a => decide (a.date ∉ datesOf N))
        ++ drop_duplicates_keep_last N := by
    rw [dedup_append, dedup_eq_self_of_nodup hMnodup]
  have hsplit2 : drop_duplicates_keep_last (T ++ N)
      = (drop_duplicates_keep_last T).filter (fun a => decide (a.date ∉ datesOf N))
        ++ drop_duplicates_keep_last N := dedup_append T N
  have hfperm : (consolidate T N).filter (fun a => decide (a.date ∉ datesOf N))
      ~ (drop_duplicates_keep_last T).filter (fun a => decide (a.date ∉ datesOf N)) := by
    have h1 := hMperm.filter (fun a => decide (a.date ∉ datesOf N))
    rw [hsplit2, List.filter_append, filter_self_idem, dedup_filter_out,
        List.append_nil] at h1
    exact h1
  have hLM : consolidate (consolidate T N) N ~ consolidate T N := by
    have h1 : consolidate (consolidate T N) N
        ~ (consolidate T N).filter (fun a => decide (a.date ∉ datesOf N))
          ++ drop_duplicates_keep_last N := by
      rw [← hsplit]; exact consolidate_perm _ _
    have h2 : (consolidate T N).filter (fun a => decide (a.date ∉ datesOf N))
        ++ drop_duplicates_keep_last N ~ drop_duplicates_keep_last (T ++ N) := by
      rw [hsplit2]; exact hfperm.append_right _
    exact (h1.trans h2).trans hMperm.symm
  exact List.eq_of_perm_of_sorted hLM
    (sorted_dateLT_of_sorted_le (consolidate_sorted _ _) (consolidate_nodup_dates _ _))
    (sorted_dateLT_of_sorted_le (consolidate_sorted _ _) hMnodup)

/-- Witness for C1 on a concrete table and a concrete non-empty new-rows set. -/
theorem merge_idempotent_witness :
    ([⟨2 * secPerDay, 5, 3, 4⟩] : List PriceRecord) ≠ []
      ∧ consolidate (consolidate [⟨secPerDay, 9, 1, 2⟩] [⟨2 * secPerDay, 5, 3, 4⟩])
          [⟨2 * secPerDay, 5, 3, 4⟩]
        = consolidate [⟨secPerDay, 9, 1, 2⟩] [⟨2 * secPerDay, 5, 3, 4⟩] :=
  ⟨by decide, merge_idempotent [⟨secPerDay, 9, 1, 2⟩] [⟨2 * secPerDay, 5, 3, 4⟩] (by decide)⟩

theorem sort_by_date_sorted (l : List PriceRecord) : (sort_by_date l).Sorted dateLE :=
  List.sorted_insertionSort _ _

theorem sort_by_date_desc_sorted (l : List PriceRecord) :
    (sort_by_date_desc l).Sorted dateGE :=
  List.sorted_insertionSort _ _

theorem sort_by_date_perm (l : List PriceRecord) : sort_by_date l ~ l :=
  List.perm_insertionSort _ _

theorem sort_by_date_eq_nil_iff (l : List PriceRecord) :
    sort_by_date l = [] ↔ l = [] := by
  constructor
  · intro h
    have hp := sort_by_date_perm l
    rw [h] at hp
    exact hp.symm.eq_nil
  · intro h
    rw [h]; rfl

theorem filter_head?_eq_find? (p : PriceRecord → Bool) (l : List PriceRecord) :
    (l.filter p).head? = l.find? p := by
  induction l with
  | nil => rfl
  | cons a as ih =>
    by_cases h : p a
    · simp [List.filter_cons, List.find?_cons, h]
    · simp [List.filter_cons, List.find?_cons, h, ih]

/-- Unfolding of `incremental_update` once a checkpoint is known to exist. -/
theorem incremental_update_of_checkpoint (fetch : DateTime → DateTime → List PriceRecord)
    (now : DateTime) (fs : FileSystem) (c : DateTime) (hc : fs.checkpoint = some c) :
    incremental_update fetch now fs =
      if calendar_date (get_last_business_day now) ≤ calendar_date c then (fs, none)
      else if fetch (c + secPerDay) (get_last_business_day now) = [] then (fs, none)
      else ({ fs with
                daily := some (consolidate (fs.daily.getD [])
                  (fetch (c + secPerDay) (get_last_business_day now))),
                checkpoint := some (maxDate
                  (fetch (c + secPerDay) (get_last_business_day now))) }, none) := by
  unfold incremental_update
  rw [hc]

/-- C2: After every successful incremental update (checkpoint present, window
open, non-empty extraction) the persisted checkpoint equals the maximum date
among the newly fetched rows, and, assuming every fetched row's date lies in
the requested window after the old checkpoint, the checkpoint value never
decreases across a run. -/
theorem incremental_checkpoint (fetch : DateTime → DateTime → List PriceRecord)
    (now : DateTime) (fs : FileSystem) (c : DateTime)
    (hc : fs.checkpoint = some c)
    (hwin : ∀ r ∈ fetch (c + secPerDay) (get_last_business_day now),
      c + secPerDay ≤ r.date) :
    (calendar_date c < calendar_date (get_last_business_day now) →
      fetch (c + secPerDay) (get_last_business_day now) ≠ [] →
      (incremental_update fetch now fs).1.checkpoint
        = some (maxDate (fetch (c + secPerDay) (get_last_business_day now)))) ∧
    (∀ c', (incremental_update fetch now fs).1.checkpoint = some c' → c ≤ c') := by
  have key := incremental_update_of_checkpoint fetch now fs c hc
  constructor
  · intro hlt hne
    rw [key, if_neg (Nat.not_le.2 hlt), if_neg hne]
  · intro c' h'
    rw [key] at h'
    split_ifs at h' with h1 h2
    · simp only [hc, Option.some.injEq] at h'
      exact h' ▸ Nat.le_refl c
    · simp only [hc, Option.some.injEq] at h'
      exact h' ▸ Nat.le_refl c
    · simp only [Option.some.injEq] at h'
      rcases List.mem_map.1 (maxDate_mem h2) with ⟨r, hr, hrd⟩
      calc c ≤ c + secPerDay := Nat.le_add_right _ _
        _ ≤ r.date := hwin r hr
        _ = maxDate (fetch (c + secPerDay) (get_last_business_day now)) := hrd
        _ = c' := h'

/-- Concrete fetch stub used by witnesses: one row at the window start. -/
def fetchW : DateTime → DateTime → List PriceRecord := fun s _ => [⟨s, 7, 5, 6⟩]

/-- Concrete file-system state used by witnesses: only a checkpoint at day 11. -/
def fsW : FileSystem := { daily := none, backup := none, checkpoint := some (11 * secPerDay) }

/-- Witness for C2 at a concrete state: a Thursday run with checkpoint at
day 11 fetches day 12 and advances the checkpoint to it. -/
theorem incremental_checkpoint_witness :
    (incremental_update fetchW (14 * secPerDay) fsW).1.checkpoint
        = some (maxDate (fetchW (12 * secPerDay) (get_last_business_day (14 * secPerDay))))
      ∧ 11 * secPerDay ≤ 12 * secPerDay :=
  ⟨(incremental_checkpoint fetchW (14 * secPerDay) fsW (11 * secPerDay) rfl
      (by decide)).1 (by decide) (by decide),
   (incremental_checkpoint fetchW (14 * secPerDay) fsW (11 * secPerDay) rfl
      (by decide)).2 (12 * secPerDay) (by decide)⟩

/-- C3: for every stored table and every limit in 1..1000 and skip, the list
operation returns the contiguous slice `[skip, skip+limit)` of the table
sorted descending by date: at most `limit` records, newest first. -/
theorem get_all_prices_spec (fs : FileSystem) (df : List PriceRecord)
    (limit skip : Nat) (hload : load_data fs = .ok df)
    (h1 : 1 ≤ limit) (h2 : limit ≤ 1000) :
    get_all_prices fs limit skip
        = .ok (((sort_by_date_desc df).drop skip).take limit)
      ∧ (((sort_by_date_desc df).drop skip).take limit).length ≤ limit
      ∧ (∀ i, i < limit →
          (((sort_by_date_desc df).drop skip).take limit)[i]?
            = (sort_by_date_desc df)[skip + i]?)
      ∧ (((sort_by_date_desc df).drop skip).take limit).Sorted dateGE := by
  refine ⟨?_, ?_, ?_, ?_⟩
  · unfold get_all_prices
    rw [hload]
  · exact List.length_take_le _ _
  · intro i hi
    rw [List.getElem?_take, if_pos hi, List.getElem?_drop]
  · exact List.Pairwise.sublist
      ((List.take_sublist _ _).trans (List.drop_sublist _ _))
      (sort_by_date_desc_sorted df)

/-- Concrete three-row table (days 1, 3, 2) used by the C3 witness. -/
def df3 : List PriceRecord :=
  [⟨secPerDay, 10, 8, 9⟩, ⟨3 * secPerDay, 30, 28, 29⟩, ⟨2 * secPerDay, 20, 18, 19⟩]

/-- Concrete file system serving `df3` from the daily table. -/
def fs3 : FileSystem := { daily := some df3, backup := none, checkpoint := none }

/-- Witness for C3: paging `df3` with limit 2, skip 1. -/
theorem get_all_prices_witness :
    get_all_prices fs3 2 1 = .ok (((sort_by_date_desc df3).drop 1).take 2)
      ∧ (((sort_by_date_desc df3).drop 1).take 2).length ≤ 2
      ∧ (∀ i, i < 2 →
          (((sort_by_date_desc df3).drop 1).take 2)[i]?
            = (sort_by_date_desc df3)[1 + i]?)
      ∧ (((sort_by_date_desc df3).drop 1).take 2).Sorted dateGE :=
  get_all_prices_spec fs3 df3 2 1 rfl (by decide) (by decide)

/-- C4: the by-date query returns a record exactly when some stored record has
the requested calendar date; the record returned is the first stored match
(with its price fields exactly as stored), and a 404 is produced otherwise. -/
theorem get_price_by_date_spec (fs : FileSystem) (df : List PriceRecord) (d : Nat)
    (hload : load_data fs = .ok df) :
    (get_price_by_date fs d = .error 404 ↔ ∀ r ∈ df, calendar_date r.date ≠ d)
      ∧ (∀ r, get_price_by_date fs d = .ok r ↔
          df.find? (fun x => calendar_date x.date == d) = some r)
      ∧ (∀ r, get_price_by_date fs d = .ok r →
          r ∈ df ∧ calendar_date r.date = d) := by
  have hdef : get_price_by_date fs d =
      match df.filter (fun r => calendar_date r.date == d) with
      | [] => .error 404
      | r :: _ => .ok r := by
    unfold get_price_by_date
    rw [hload]
  have herr : get_price_by_date fs d = .error 404
      ↔ df.filter (fun r => calendar_date r.date == d) = [] := by
    rw [hdef]
    cases hfil : df.filter (fun r => calendar_date r.date == d) with
    | nil => simp
    | cons r0 rest => simp
  have hok : ∀ r, get_price_by_date fs d = .ok r
      ↔ (df.filter (fun x => calendar_date x.date == d)).head? = some r := by
    intro r
    rw [hdef]
    cases hfil : df.filter (fun x => calendar_date x.date == d) with
    | nil => simp
    | cons r0 rest => simp
  refine ⟨?_, ?_, ?_⟩
  · rw [herr, List.filter_eq_nil_iff]
    constructor
    · intro h r hr hd0
      exact h r hr (by simp [hd0])
    · intro h r hr
      simp only [beq_iff_eq]
      exact h r hr
  · intro r
    rw [hok r, filter_head?_eq_find?]
  · intro r hr
    have hf : df.find? (fun x => calendar_date x.date == d) = some r := by
      rw [← filter_head?_eq_find?, ← hok r]; exact hr
    refine ⟨List.mem_of_find?_eq_some hf, ?_⟩
    have := List.find?_some hf
    simpa using this

/-- Witness for C4: querying `df3` for calendar date 2 finds the stored row. -/
theorem get_price_by_date_witness :
    (get_price_by_date fs3 2 = .error 404 ↔ ∀ r ∈ df3, calendar_date r.date ≠ 2)
      ∧ (∀ r, get_price_by_date fs3 2 = .ok r ↔
          df3.find? (fun x => calendar_date x.date == 2) = some r)
      ∧ (∀ r, get_price_by_date fs3 2 = .ok r →
          r ∈ df3 ∧ calendar_date r.date = 2) :=
  get_price_by_date_spec fs3 df3 2 rfl

/-- C5: the range query returns exactly the stored records whose calendar
date lies in the inclusive interval `[start, end]`, in ascending date order,
and fails with 404 exactly when that set is empty. -/
theorem get_prices_by_range_spec (fs : FileSystem) (df : List PriceRecord)
    (s e : Nat) (hload : load_data fs = .ok df) :
    (get_prices_by_range fs s e = .error 404 ↔
       ∀ r ∈ df, ¬(s ≤ calendar_date r.date ∧ calendar_date r.date ≤ e))
      ∧ (∀ res, get_prices_by_range fs s e = .ok res →
          res ~ df.filter (fun r =>
              s ≤ calendar_date r.date && calendar_date r.date ≤ e)
            ∧ res.Sorted dateLE
            ∧ (∀ r, r ∈ res ↔
                r ∈ df ∧ s ≤ calendar_date r.date ∧ calendar_date r.date ≤ e)) := by
  have hdef : get_prices_by_range fs s e =
      if sort_by_date (df.filter (fun r =>
          s ≤ calendar_date r.date && calendar_date r.date ≤ e)) = []
      then .error 404
      else .ok (sort_by_date (df.filter (fun r =>
          s ≤ calendar_date r.date && calendar_date r.date ≤ e))) := by
    unfold get_prices_by_range
    rw [hload]
  constructor
  · rw [hdef]
    split_ifs with hnil
    · simp only [true_iff]
      rw [sort_by_date_eq_nil_iff, List.filter_eq_nil_iff] at hnil
      intro r hr hcontra
      exact hnil r hr (by simp [hcontra.1, hcontra.2])
    · constructor
      · intro h; cases h
      · intro hall
        exfalso
        apply hnil
        rw [sort_by_date_eq_nil_iff, List.filter_eq_nil_iff]
        intro r hr
        simp only [Bool.and_eq_true, decide_eq_true_eq, not_and]
        intro hs he
        exact hall r hr ⟨hs, he⟩
  · intro res hres
    rw [hdef] at hres
    by_cases hnil : sort_by_date (df.filter (fun r =>
        s ≤ calendar_date r.date && calendar_date r.date ≤ e)) = []
    · rw [if_pos hnil] at hres
      cases hres
    · rw [if_neg hnil] at hres
      cases hres
      refine ⟨sort_by_date_perm _, sort_by_date_sorted _, ?_⟩
      intro r
      rw [(sort_by_date_perm _).mem_iff, List.mem_filter]
      simp

/-- Concrete five-row table, deliberately out of order (days 12, 10, 14, 11, 13). -/
def df5 : List PriceRecord :=
  [⟨12 * secPerDay, 2, 1, 1⟩, ⟨10 * secPerDay, 4, 3, 3⟩, ⟨14 * secPerDay, 6, 5, 5⟩,
   ⟨11 * secPerDay, 8, 7, 7⟩, ⟨13 * secPerDay, 9, 8, 8⟩]

/-- Concrete file system serving `df5` from the daily table. -/
def fs5 : FileSystem := { daily := some df5, backup := none, checkpoint := none }

/-- Witness for C5: the inclusive range 11..13 over `df5` yields exactly the
three matching rows in ascending date order. -/
theorem get_prices_by_range_witness :
    get_prices_by_range fs5 11 13
        = .ok [⟨11 * secPerDay, 8, 7, 7⟩, ⟨12 * secPerDay, 2, 1, 1⟩,
               ⟨13 * secPerDay, 9, 8, 8⟩]
      ∧ ([⟨11 * secPerDay, 8, 7, 7⟩, ⟨12 * secPerDay, 2, 1, 1⟩,
          ⟨13 * secPerDay, 9, 8, 8⟩] : List PriceRecord)
          ~ df5.filter (fun r => 11 ≤ calendar_date r.date && calendar_date r.date ≤ 13)
      ∧ List.Sorted dateLE [⟨11 * secPerDay, 8, 7, 7⟩, ⟨12 * secPerDay, 2, 1, 1⟩,
          ⟨13 * secPerDay, 9, 8, 8⟩]
      ∧ (∀ r, r ∈ [⟨11 * secPerDay, 8, 7, 7⟩, ⟨12 * secPerDay, 2, 1, 1⟩,
          ⟨13 * secPerDay, 9, 8, 8⟩] ↔
            r ∈ df5 ∧ 11 ≤ calendar_date r.date ∧ calendar_date r.date ≤ 13) :=
  ⟨by rfl,
   (get_prices_by_range_spec fs5 df5 11 13 rfl).2
     [⟨11 * secPerDay, 8, 7, 7⟩, ⟨12 * secPerDay, 2, 1, 1⟩, ⟨13 * secPerDay, 9, 8, 8⟩]
     (by rfl)⟩

/-- C6: on every request the service loads the primary daily table when
present, falls back to the backup table, and signals the no-data condition
exactly when neither exists; no read request modifies the stored state. -/
theorem load_data_spec (fs : FileSystem) :
    (∀ df, fs.daily = some df → load_data fs = .ok df)
      ∧ (fs.daily = none → ∀ df, fs.backup = some df → load_data fs = .ok df)
      ∧ (load_data fs = .error 404 ↔ fs.daily = none ∧ fs.backup = none)
      ∧ (∀ q, (handle_request fs q).2 = fs) := by
  refine ⟨?_, ?_, ?_, ?_⟩
  · intro df h
    unfold load_data
    rw [h]
  · intro h df h2
    unfold load_data
    rw [h, h2]
  · unfold load_data
    rcases hd : fs.daily with _ | d
    · rcases hb : fs.backup with _ | b
      · simp
      · simp
    · simp
  · intro q
    cases q <;> rfl

/-- Witness for C6 on a state with only a backup table. -/
theorem load_data_witness :
    (∀ df, (FileSystem.mk none (some df3) none).daily = some df →
        load_data (FileSystem.mk none (some df3) none) = .ok df)
      ∧ ((FileSystem.mk none (some df3) none).daily = none →
          ∀ df, (FileSystem.mk none (some df3) none).backup = some df →
            load_data (FileSystem.mk none (some df3) none) = .ok df)
      ∧ (load_data (FileSystem.mk none (some df3) none) = .error 404 ↔
          (FileSystem.mk none (some df3) none).daily = none
            ∧ (FileSystem.mk none (some df3) none).backup = none)
      ∧ (∀ q, (handle_request (FileSystem.mk none (some df3) none) q).2
          = FileSystem.mk none (some df3) none) :=
  load_data_spec (FileSystem.mk none (some df3) none)

/-- C7: health reports unhealthy with status 503 and the error detail whenever
the load fails (in particular when both table files are absent), and otherwise
reports healthy with status 200, the record count and the last date. -/
theorem health_check_spec (fs : FileSystem) :
    (∀ df, load_data fs = .ok df →
        health_check fs = .healthy df.length (maxDate? df)
          ∧ (health_check fs).statusCode = 200)
      ∧ (∀ e, load_data fs = .error e →
          health_check fs = .unhealthy e ∧ (health_check fs).statusCode = 503)
      ∧ (fs.daily = none → fs.backup = none → (health_check fs).statusCode = 503) := by
  refine ⟨?_, ?_, ?_⟩
  · intro df h
    unfold health_check
    rw [h]
    exact ⟨rfl, rfl⟩
  · intro e h
    unfold health_check
    rw [h]
    exact ⟨rfl, rfl⟩
  · intro h1 h2
    have hfail : load_data fs = .error 404 := by
      unfold load_data
      rw [h1, h2]
    unfold health_check
    rw [hfail]
    rfl

/-- Witness for C7 on the empty state (neither table file exists). -/
theorem health_check_witness :
    (∀ df, load_data (FileSystem.mk none none none) = .ok df →
        health_check (FileSystem.mk none none none) = .healthy df.length (maxDate? df)
          ∧ (health_check (FileSystem.mk none none none)).statusCode = 200)
      ∧ (∀ e, load_data (FileSystem.mk none none none) = .error e →
          health_check (FileSystem.mk none none none) = .unhealthy e
            ∧ (health_check (FileSystem.mk none none none)).statusCode = 503)
      ∧ ((FileSystem.mk none none none).daily = none →
          (FileSystem.mk none none none).backup = none →
          (health_check (FileSystem.mk none none none)).statusCode = 503) :=
  health_check_spec (FileSystem.mk none none none)

/-- Unfolding of `create_backup` to its branch form. -/
theorem create_backup_eq (fetch : DateTime → DateTime → List PriceRecord)
    (now : DateTime) (fs : FileSystem) :
    create_backup fetch now fs =
      if fetch (get_backup_start_date now) now = [] then (fs, some 1)
      else ({ fs with
                backup := some (fetch (get_backup_start_date now) now),
                checkpoint := some (maxDate (fetch (get_backup_start_date now) now)) },
            none) := by
  unfold create_backup
  rfl

/-- C8: the full backup extracts the window starting three years (of 365 days
each) before now; on an empty extraction it exits with code 1 leaving the
state, in particular the checkpoint, unchanged; otherwise it persists the
extracted table as the backup and writes the checkpoint equal to the maximum
date in that table. -/
theorem create_backup_spec (fetch : DateTime → DateTime → List PriceRecord)
    (now : DateTime) (fs : FileSystem) :
    (fetch (get_backup_start_date now) now = [] →
       create_backup fetch now fs = (fs, some 1))
      ∧ (fetch (get_backup_start_date now) now ≠ [] →
          create_backup fetch now fs
            = ({ fs with
                   backup := some (fetch (get_backup_start_date now) now),
                   checkpoint := some (maxDate (fetch (get_backup_start_date now) now)) },
               none))
      ∧ (∀ r ∈ fetch (get_backup_start_date now) now,
          r.date ≤ maxDate (fetch (get_backup_start_date now) now))
      ∧ (fetch (get_backup_start_date now) now ≠ [] →
          maxDate (fetch (get_backup_start_date now) now)
            ∈ datesOf (fetch (get_backup_start_date now) now))
      ∧ get_backup_start_date now = now - BACKUP_YEARS * 365 * secPerDay := by
  refine ⟨?_, ?_, ?_, ?_, rfl⟩
  · intro h
    rw [create_backup_eq, if_pos h]
  · intro h
    rw [create_backup_eq, if_neg h]
  · intro r hr
    exact le_maxDate hr
  · intro h
    exact maxDate_mem h

/-- Witness for C8 with the one-row fetch stub. -/
theorem create_backup_witness :
    (fetchW (get_backup_start_date (14 * secPerDay)) (14 * secPerDay) = [] →
       create_backup fetchW (14 * secPerDay) fsW = (fsW, some 1))
      ∧ (fetchW (get_backup_start_date (14 * secPerDay)) (14 * secPerDay) ≠ [] →
          create_backup fetchW (14 * secPerDay) fsW
            = ({ fsW with
                   backup := some (fetchW (get_backup_start_date (14 * secPerDay))
                     (14 * secPerDay)),
                   checkpoint := some (maxDate (fetchW
                     (get_backup_start_date (14 * secPerDay)) (14 * secPerDay))) },
               none))
      ∧ (∀ r ∈ fetchW (get_backup_start_date (14 * secPerDay)) (14 * secPerDay),
          r.date ≤ maxDate (fetchW (get_backup_start_date (14 * secPerDay))
            (14 * secPerDay)))
      ∧ (fetchW (get_backup_start_date (14 * secPerDay)) (14 * secPerDay) ≠ [] →
          maxDate (fetchW (get_backup_start_date (14 * secPerDay)) (14 * secPerDay))
            ∈ datesOf (fetchW (get_backup_start_date (14 * secPerDay)) (14 * secPerDay)))
      ∧ get_backup_start_date (14 * secPerDay)
          = 14 * secPerDay - BACKUP_YEARS * 365 * secPerDay :=
  create_backup_spec fetchW (14 * secPerDay) fsW

/-- C9: with a checkpoint present, the last completed business day is Friday
when today is Saturday, Friday when today is Sunday, and yesterday otherwise,
and the incremental update is a no-op (independent of the fetched data)
whenever the checkpoint's calendar date has reached that business day. -/
theorem last_business_day_spec (fetch : DateTime → DateTime → List PriceRecord)
    (now : DateTime) (fs : FileSystem) (c : DateTime)
    (hnow : 2 * secPerDay ≤ now) :
    (weekday now = 5 →
       get_last_business_day now = now - secPerDay
         ∧ weekday (get_last_business_day now) = 4)
      ∧ (weekday now = 6 →
          get_last_business_day now = now - 2 * secPerDay
            ∧ weekday (get_last_business_day now) = 4)
      ∧ (weekday now ≠ 5 → weekday now ≠ 6 →
          get_last_business_day now = now - secPerDay)
      ∧ (fs.checkpoint = some c →
          calendar_date (get_last_business_day now) ≤ calendar_date c →
          incremental_update fetch now fs = (fs, none)) := by
  refine ⟨?_, ?_, ?_, ?_⟩
  · intro h
    have hval : get_last_business_day now = now - secPerDay := by
      rw [get_last_business_day, if_pos h]
    refine ⟨hval, ?_⟩
    rw [hval]
    simp only [weekday, calendar_date, secPerDay] at h ⊢
    omega
  · intro h
    have h5 : weekday now ≠ 5 := by rw [h]; decide
    have hval : get_last_business_day now = now - 2 * secPerDay := by
      rw [get_last_business_day, if_neg h5, if_pos h]
    refine ⟨hval, ?_⟩
    rw [hval]
    simp only [weekday, calendar_date, secPerDay] at h ⊢
    omega
  · intro h5 h6
    rw [get_last_business_day, if_neg h5, if_neg h6]
  · intro hc hge
    rw [incremental_update_of_checkpoint fetch now fs c hc, if_pos hge]

/-- Concrete file system for the C9 witness: checkpoint at day 15. -/
def fs9 : FileSystem := { daily := none, backup := none, checkpoint := some (15 * secPerDay) }

/-- Witness for C9 on a concrete Saturday (day 16), checkpoint already at
Friday (day 15), so the run is a no-op. -/
theorem last_business_day_witness :
    (weekday (16 * secPerDay) = 5 →
       get_last_business_day (16 * secPerDay) = 16 * secPerDay - secPerDay
         ∧ weekday (get_last_business_day (16 * secPerDay)) = 4)
      ∧ (weekday (16 * secPerDay) = 6 →
          get_last_business_day (16 * secPerDay) = 16 * secPerDay - 2 * secPerDay
            ∧ weekday (get_last_business_day (16 * secPerDay)) = 4)
      ∧ (weekday (16 * secPerDay) ≠ 5 → weekday (16 * secPerDay) ≠ 6 →
          get_last_business_day (16 * secPerDay) = 16 * secPerDay - secPerDay)
      ∧ (fs9.checkpoint = some (15 * secPerDay) →
          calendar_date (get_last_business_day (16 * secPerDay))
            ≤ calendar_date (15 * secPerDay) →
          incremental_update fetchW (16 * secPerDay) fs9 = (fs9, none)) :=
  last_business_day_spec fetchW (16 * secPerDay) fs9 (15 * secPerDay) (by decide)

/-- C10: a full backup writes only the backup table and the checkpoint; the
primary daily table is untouched, so while the daily file exists the query
service keeps serving exactly the same data after a backup. -/
theorem create_backup_frame (fetch : DateTime → DateTime → List PriceRecord)
    (now : DateTime) (fs : FileSystem) :
    (create_backup fetch now fs).1.daily = fs.daily
      ∧ (∀ df, fs.daily = some df →
          load_data (create_backup fetch now fs).1 = load_data fs) := by
  constructor
  · rw [create_backup_eq]
    split_ifs <;> rfl
  · intro df h
    rw [create_backup_eq]
    split_ifs
    · rfl
    · simp only [load_data, h]

/-- Witness for C10: a backup over a state whose daily table holds `df3`. -/
theorem create_backup_frame_witness :
    (create_backup fetchW (14 * secPerDay) fs3).1.daily = fs3.daily
      ∧ (∀ df, fs3.daily = some df →
          load_data (create_backup fetchW (14 * secPerDay) fs3).1 = load_data fs3) :=
  create_backup_frame fetchW (14 * secPerDay) fs3

end GoldPipeline
